import Mathlib

/-!
Verification development for the launch-command synthesis engine and the
settings model of the "Open in Terminal" Obsidian plugin.

The definitions below are a shallow embedding of the TypeScript source:
pure string manipulation becomes Lean functions over `String` (modelled
through the underlying character list so that every definition is
executable), the ambient `Platform` flags become an explicit record
parameter, the file-system side effects of the temporary-script path are
made explicit (the fresh temporary directory chosen by `mkdtempSync`
becomes a parameter, the written script and the directory deleted by the
cleanup action become output fields), and untyped persisted settings
values become an inductive JavaScript-value type.
-/

namespace OpenInTerminal

/-- Drop trailing characters satisfying `q`; used to embed the
JavaScript `String.prototype.trim` (which strips both ends). -/
def dropTrailing (q : Char → Bool) (l : List Char) : List Char :=
  (l.reverse.dropWhile q).reverse

/-- Embedding of JavaScript `value.trim()`: strip leading and trailing
whitespace. -/
def jsTrim (s : String) : String :=
  ⟨dropTrailing Char.isWhitespace (s.data.dropWhile Char.isWhitespace)⟩

/-- source: `const sanitizeTerminalApp = (value) => value.trim()`. -/
def sanitizeTerminalApp (value : String) : String := jsTrim value

/-- source: `escapeDoubleQuotes = (value) => value.replace(/"/g, backslash-quote)`:
each double-quote character is replaced by a backslash followed by a
double quote. -/
def escapeDoubleQuotes (value : String) : String :=
  ⟨value.data.foldr (fun c acc => if c = '"' then '\\' :: '"' :: acc else c :: acc) []⟩

/-- source (buildWindowsLaunch): `vaultPath.replace(/"/g, '"')` — each
double-quote character is replaced by a double-quote character. -/
def winEscapeVault (value : String) : String :=
  ⟨value.data.foldr (fun c acc => if c = '"' then '"' :: acc else c :: acc) []⟩

/-- The single-quote character, written by code point to keep string
literals simple. -/
def squote : Char := Char.ofNat 39

/-- source (buildWindowsLaunch, powershell branch):
`vaultPath.replace(/\x27/g, "\x27\x27")` — each single quote is doubled. -/
def psEscapeSingleQuotes (value : String) : String :=
  ⟨value.data.foldr (fun c acc => if c = squote then squote :: squote :: acc else c :: acc) []⟩

/-- Embedding of JavaScript `toLowerCase` on the app names compared by
`buildWindowsLaunch` (ASCII comparison). -/
def jsToLower (s : String) : String :=
  ⟨s.data.map Char.toLower⟩

/-- Helper for `hasInfixList`: does `l` start with `pat`? -/
def startsWithList : List Char → List Char → Bool
  | [], _ => true
  | _ :: _, [] => false
  | a :: ps, b :: ls => a == b && startsWithList ps ls

/-- Helper for `includes`: does `l` contain `pat` as a contiguous run? -/
def hasInfixList (pat : List Char) : List Char → Bool
  | [] => pat.isEmpty
  | b :: ls => startsWithList pat (b :: ls) || hasInfixList pat ls

/-- Embedding of JavaScript `s.includes(pat)` (substring containment). -/
def includes (s pat : String) : Bool :=
  hasInfixList pat.data s.data

/-- The ambient Obsidian platform flags queried by the source. -/
structure Platform where
  isDesktopApp : Bool
  isMacOS : Bool
  isWin : Bool
  isLinux : Bool
deriving DecidableEq, Repr

/-- The temporary script written by `ensureTempScript`: its path, its
text content and its permission bits (`writeFileSync(..., mode 0o755)`). -/
structure TempScript where
  path : String
  content : String
  mode : Nat
deriving DecidableEq, Repr

/-- source type `LaunchCommand`: the command string plus the optional
cleanup action. The side effects of the macOS script path are made
explicit: `cleanup` records the directory the cleanup action removes
(absent when the source returns no cleanup), and `script` records the
temporary script written while building the command (absent when no
script is created). -/
structure LaunchCommand where
  command : String
  cleanup : Option String := none
  script : Option TempScript := none
deriving DecidableEq, Repr

/-- source `ensureTempScript(content)`: `mkdtempSync` picks a fresh
directory (passed here as `freshDir`), the content is written to the
fixed-name file `launch.command` inside it with mode 0o755, and the
returned cleanup action removes the directory. Returns the script and
the directory the cleanup deletes. -/
def ensureTempScript (freshDir : String) (content : String) : TempScript × String :=
  (⟨freshDir ++ "/launch.command", content, 0o755⟩, freshDir)

/-- source `buildMacLaunch(terminalApp, vaultPath, toolCommand?)`.
JavaScript truthiness: an empty tool-command string behaves exactly like
an absent one (`if (!toolCommand)`). -/
def buildMacLaunch (terminalApp vaultPath : String) (toolCommand : Option String)
    (freshDir : String) : Option LaunchCommand :=
  let app := sanitizeTerminalApp terminalApp
  if app = "" then none
  else
    match toolCommand with
    | none =>
      some { command := "open -na \"" ++ escapeDoubleQuotes app ++ "\" \""
               ++ escapeDoubleQuotes vaultPath ++ "\"" }
    | some tc =>
      if tc = "" then
        some { command := "open -na \"" ++ escapeDoubleQuotes app ++ "\" \""
                 ++ escapeDoubleQuotes vaultPath ++ "\"" }
      else
        let content := "#!/bin/bash" ++ "\n"
          ++ "cd \"" ++ escapeDoubleQuotes vaultPath ++ "\"" ++ "\n"
          ++ tc ++ "\n"
          ++ "exec \"$SHELL\""
        let made := ensureTempScript freshDir content
        some { command := "open -na \"" ++ escapeDoubleQuotes app ++ "\" \""
                 ++ made.1.path ++ "\"",
               cleanup := some made.2,
               script := some made.1 }

/-- source `buildWindowsLaunch(terminalApp, vaultPath, toolCommand?)`.
JavaScript truthiness on `toolCommand` is captured by normalising an
empty string to absent before the branches that test it. -/
def buildWindowsLaunch (terminalApp vaultPath : String)
    (toolCommand : Option String) : Option LaunchCommand :=
  let app := sanitizeTerminalApp terminalApp
  if app = "" then none
  else
    let escapedVault := winEscapeVault vaultPath
    let cdCommand := "cd /d \"" ++ escapedVault ++ "\""
    let toolOpt : Option String :=
      match toolCommand with
      | some tc => if tc = "" then none else some tc
      | none => none
    let tool : String :=
      match toolOpt with
      | some tc => " && " ++ tc
      | none => ""
    let lowerApp := jsToLower app
    if lowerApp = "cmd.exe" ∨ lowerApp = "cmd" then
      some { command := "start \"\" cmd.exe /K \"" ++ cdCommand ++ tool ++ "\"" }
    else if lowerApp = "powershell" ∨ lowerApp = "powershell.exe" then
      match toolOpt with
      | none =>
        some { command := "start \"\" powershell -NoExit -Command \"Set-Location \x27"
                 ++ psEscapeSingleQuotes vaultPath ++ "\x27;\"" }
      | some tc =>
        some { command := "start \"\" powershell -NoExit -Command \"Set-Location \x27"
                 ++ psEscapeSingleQuotes vaultPath ++ "\x27; " ++ tc ++ "\"" }
    else if lowerApp = "wt.exe" ∨ lowerApp = "wt" then
      some { command := "start \"\" wt.exe new-tab cmd /K \"" ++ cdCommand ++ tool ++ "\"" }
    else
      match toolOpt with
      | none => some { command := "start \"\" \"" ++ app ++ "\"" }
      | some _ =>
        some { command := "start \"\" cmd.exe /K \"" ++ cdCommand ++ tool ++ "\"" }

/-- source `buildUnixLaunch(terminalApp, toolCommand?)`: note the working
directory is not a parameter — it is never embedded in the command. -/
def buildUnixLaunch (terminalApp : String) (toolCommand : Option String) :
    Option LaunchCommand :=
  let app := sanitizeTerminalApp terminalApp
  if app = "" then none
  else
    let toolOpt : Option String :=
      match toolCommand with
      | some tc => if tc = "" then none else some tc
      | none => none
    match toolOpt with
    | none => some { command := app }
    | some tc =>
      let shellCommand := "cd \"$PWD\"; " ++ tc ++ "; exec \"$SHELL\""
      if includes app "gnome-terminal" then
        some { command := app ++ " -- bash -lc \"" ++ shellCommand ++ "\"" }
      else if includes app "konsole" then
        some { command := app ++ " -e bash -lc \"" ++ shellCommand ++ "\"" }
      else
        some { command := app ++ " -e bash -lc \"" ++ shellCommand ++ "\"" }

/-- source `buildLaunchCommand(terminalApp, vaultPath, toolCommand?)`:
platform dispatch. `freshDir` is threaded to the macOS script path. -/
def buildLaunchCommand (p : Platform) (terminalApp vaultPath : String)
    (toolCommand : Option String) (freshDir : String) : Option LaunchCommand :=
  if !p.isDesktopApp then none
  else if p.isMacOS then buildMacLaunch terminalApp vaultPath toolCommand freshDir
  else if p.isWin then buildWindowsLaunch terminalApp vaultPath toolCommand
  else buildUnixLaunch terminalApp toolCommand

/-- The options object built by `composeLaunchCommand` in main.ts. -/
structure LaunchOptions where
  useWslOnWindows : Bool
deriving DecidableEq, Repr

/-- Embedding of the call
`buildLaunchCommand(terminalApp, vaultPath, toolCommand, { useWslOnWindows })`
made by `composeLaunchCommand`: the callee declares only three
parameters, so in JavaScript the fourth argument is discarded and cannot
influence the result. -/
def buildLaunchCommandWithOptions (p : Platform) (terminalApp vaultPath : String)
    (toolCommand : Option String) (_opts : LaunchOptions) (freshDir : String) :
    Option LaunchCommand :=
  buildLaunchCommand p terminalApp vaultPath toolCommand freshDir

/-- Minimal file-system state for the cleanup semantics: the set of
existing directories, and the directories whose removal fails (for
example because of permissions). -/
structure FS where
  dirs : List String
  locked : List String
deriving DecidableEq, Repr

/-- Errors `rmSync` can raise. -/
inductive FsError
  | eperm
deriving DecidableEq, Repr

/-- Semantics of `rmSync(dir, { recursive: true, force: true })`: with
`force` a missing directory is not an error; a locked directory raises. -/
def rmSyncRecursiveForce (dir : String) (fs : FS) : Except FsError FS :=
  if fs.locked.contains dir then .error .eperm
  else .ok { fs with dirs := fs.dirs.filter (fun d => !(d == dir)) }

/-- Semantics of the cleanup action returned by `ensureTempScript`: it
calls `rmSync(dir, { recursive: true, force: true })` inside a
try/catch; an error is swallowed and logged with `console.warn`, so the
action itself always returns normally. -/
def runCleanup (dir : String) (fs : FS) : Except FsError FS :=
  match rmSyncRecursiveForce dir fs with
  | .ok fs2 => .ok fs2
  | .error _ => .ok fs

/-- source type `DesktopPlatform` in settings.ts. -/
inductive DesktopPlatform
  | win
  | macos
  | linux
deriving DecidableEq, Repr

/-- source type `TerminalAppByPlatform`: optional slot per OS family. -/
structure TerminalAppByPlatform where
  win : Option String := none
  macos : Option String := none
  linux : Option String := none
deriving DecidableEq, Repr

/-- source interface `OpenInTerminalSettings` in settings.ts. -/
structure OpenInTerminalSettings where
  terminalApp : TerminalAppByPlatform
  enableClaude : Bool
  enableCodex : Bool
  enableCursor : Bool
  enableGemini : Bool
  enableOpencode : Bool
  enableWslOnWindows : Bool
deriving DecidableEq, Repr

/-- source `defaultTerminalApp()`. -/
def defaultTerminalApp (p : Platform) : String :=
  if !p.isDesktopApp then ""
  else if p.isMacOS then "Terminal"
  else if p.isWin then "cmd.exe"
  else if p.isLinux then "x-terminal-emulator"
  else ""

/-- source `getCurrentDesktopPlatform()`. -/
def getCurrentDesktopPlatform (p : Platform) : Option DesktopPlatform :=
  if !p.isDesktopApp then none
  else if p.isMacOS then some .macos
  else if p.isWin then some .win
  else if p.isLinux then some .linux
  else none

/-- Embedding of the object literal with a computed key,
`{ [platform]: value }`: only the slot of `pf` is present. -/
def platformSlot (pf : DesktopPlatform) (value : String) : TerminalAppByPlatform :=
  match pf with
  | .win => { win := some value }
  | .macos => { macos := some value }
  | .linux => { linux := some value }

/-- source `buildDefaultTerminalAppSetting()`. -/
def buildDefaultTerminalAppSetting (p : Platform) : TerminalAppByPlatform :=
  match getCurrentDesktopPlatform p with
  | none => {}
  | some pf => platformSlot pf (defaultTerminalApp p)

/-- source `DEFAULT_SETTINGS` (a function of the ambient platform). -/
def DEFAULT_SETTINGS (p : Platform) : OpenInTerminalSettings :=
  { terminalApp := buildDefaultTerminalAppSetting p
    enableClaude := false
    enableCodex := false
    enableCursor := false
    enableGemini := false
    enableOpencode := false
    enableWslOnWindows := false }

/-- Untyped JavaScript values as far as the settings code inspects them:
null, undefined, strings, booleans, numbers and key-value objects. -/
inductive JsValue
  | null
  | undefined
  | str (s : String)
  | bool (b : Bool)
  | num (n : Int)
  | obj (fields : List (String × JsValue))

/-- JavaScript property access `v[k]`: an absent key reads as undefined;
the settings code only reads properties after an `isRecord` check, and
on non-objects the read yields undefined. -/
def getField (v : JsValue) (k : String) : JsValue :=
  match v with
  | .obj fields => (fields.lookup k).getD .undefined
  | _ => .undefined

/-- source `isRecord`: `typeof value === "object" && value !== null`. -/
def isRecord (v : JsValue) : Bool :=
  match v with
  | .obj _ => true
  | _ => false

/-- source `readBoolean`: the stored value if it is of boolean type,
else the fallback. -/
def readBoolean (v : JsValue) (fallback : Bool) : Bool :=
  match v with
  | .bool b => b
  | _ => fallback

/-- source `normalizeTerminalAppSetting(value, fallback)`. -/
def normalizeTerminalAppSetting (p : Platform) (value : JsValue)
    (fallback : TerminalAppByPlatform) : TerminalAppByPlatform :=
  match value with
  | .str s =>
    match getCurrentDesktopPlatform p with
    | none => fallback
    | some pf => platformSlot pf (jsTrim s)
  | .obj _ =>
    { win :=
        match getField value "win" with
        | .str s => some (jsTrim s)
        | _ => none
      macos :=
        match getField value "macos" with
        | .str s => some (jsTrim s)
        | _ => none
      linux :=
        match getField value "linux" with
        | .str s => some (jsTrim s)
        | _ => none }
  | _ => fallback

/-- source `normalizeSettings(stored)`. -/
def normalizeSettings (p : Platform) (stored : JsValue) : OpenInTerminalSettings :=
  let source := if isRecord stored then stored else .obj []
  { terminalApp :=
      normalizeTerminalAppSetting p (getField source "terminalApp")
        (DEFAULT_SETTINGS p).terminalApp
    enableClaude := readBoolean (getField source "enableClaude") (DEFAULT_SETTINGS p).enableClaude
    enableCodex := readBoolean (getField source "enableCodex") (DEFAULT_SETTINGS p).enableCodex
    enableCursor := readBoolean (getField source "enableCursor") (DEFAULT_SETTINGS p).enableCursor
    enableGemini := readBoolean (getField source "enableGemini") (DEFAULT_SETTINGS p).enableGemini
    enableOpencode :=
      readBoolean (getField source "enableOpencode") (DEFAULT_SETTINGS p).enableOpencode
    enableWslOnWindows :=
      readBoolean (getField source "enableWslOnWindows") (DEFAULT_SETTINGS p).enableWslOnWindows }

/-- Re-encoding of a normalized `TerminalAppByPlatform` as the stored
JavaScript object: present slots become string properties, absent slots
are simply missing keys. -/
def encodeTerminalApp (t : TerminalAppByPlatform) : JsValue :=
  .obj ((match t.win with
          | some s => [("win", JsValue.str s)]
          | none => []) ++
        (match t.macos with
          | some s => [("macos", JsValue.str s)]
          | none => []) ++
        (match t.linux with
          | some s => [("linux", JsValue.str s)]
          | none => []))

/-- Re-encoding of normalized settings as the stored JavaScript value
that `saveData(this.settings)` persists. -/
def encodeSettings (s : OpenInTerminalSettings) : JsValue :=
  .obj [("terminalApp", encodeTerminalApp s.terminalApp),
        ("enableClaude", .bool s.enableClaude),
        ("enableCodex", .bool s.enableCodex),
        ("enableCursor", .bool s.enableCursor),
        ("enableGemini", .bool s.enableGemini),
        ("enableOpencode", .bool s.enableOpencode),
        ("enableWslOnWindows", .bool s.enableWslOnWindows)]

/-- Every present slot is a fixed point of trimming; this is the
invariant normalization establishes on the terminal-app mapping. -/
def TrimFixed (t : TerminalAppByPlatform) : Prop :=
  (∀ s, t.win = some s → jsTrim s = s) ∧
  (∀ s, t.macos = some s → jsTrim s = s) ∧
  (∀ s, t.linux = some s → jsTrim s = s)

/- ----------------------------------------------------------------- -/
/- Helper lemmas                                                      -/
/- ----------------------------------------------------------------- -/

theorem dropWhile_dropWhile (q : Char → Bool) (l : List Char) :
    (l.dropWhile q).dropWhile q = l.dropWhile q := by
  induction l with
  | nil => rfl
  | cons a l ih =>
    by_cases h : q a = true
    · simpa [List.dropWhile_cons, h] using ih
    · simp [List.dropWhile_cons, h]

theorem dropWhile_append_singleton (q : Char → Bool) (a : Char) (ha : q a = false)
    (l : List Char) : ∃ t, (l ++ [a]).dropWhile q = t ++ [a] := by
  induction l with
  | nil => exact ⟨[], by simp [List.dropWhile_cons, ha]⟩
  | cons b l ih =>
    by_cases h : q b = true
    · simpa [List.dropWhile_cons, h] using ih
    · exact ⟨b :: l, by simp [List.dropWhile_cons, h]⟩

theorem length_dropWhile_le (q : Char → Bool) (l : List Char) :
    (l.dropWhile q).length ≤ l.length := by
  induction l with
  | nil => simp
  | cons a l ih =>
    by_cases h : q a = true
    · simp only [List.dropWhile_cons, h, if_true]
      exact Nat.le_succ_of_le ih
    · simp [List.dropWhile_cons, h]

theorem head_not_of_dropWhile_fixed (q : Char → Bool) (l : List Char)
    (h : l.dropWhile q = l) : l = [] ∨ ∃ a t, l = a :: t ∧ q a = false := by
  cases l with
  | nil => exact Or.inl rfl
  | cons a t =>
    by_cases ha : q a = true
    · exfalso
      rw [List.dropWhile_cons, if_pos ha] at h
      have hle := length_dropWhile_le q t
      rw [h] at hle
      simp at hle
    · exact Or.inr ⟨a, t, rfl, by simpa using ha⟩

theorem dropTrailing_dropTrailing (q : Char → Bool) (l : List Char) :
    dropTrailing q (dropTrailing q l) = dropTrailing q l := by
  unfold dropTrailing
  rw [List.reverse_reverse, dropWhile_dropWhile]

theorem dropWhile_dropTrailing (q : Char → Bool) (l : List Char)
    (h : l.dropWhile q = l) : (dropTrailing q l).dropWhile q = dropTrailing q l := by
  rcases head_not_of_dropWhile_fixed q l h with hnil | ⟨a, t, rfl, ha⟩
  · subst hnil; rfl
  · unfold dropTrailing
    have : (a :: t).reverse = t.reverse ++ [a] := by simp
    rw [this]
    obtain ⟨u, hu⟩ := dropWhile_append_singleton q a ha t.reverse
    rw [hu]
    have : (u ++ [a]).reverse = a :: u.reverse := by simp
    rw [this, List.dropWhile_cons]
    simp [ha]

theorem jsTrim_jsTrim (s : String) : jsTrim (jsTrim s) = jsTrim s := by
  have hA : (s.data.dropWhile Char.isWhitespace).dropWhile Char.isWhitespace
      = s.data.dropWhile Char.isWhitespace := dropWhile_dropWhile _ _
  show String.mk (dropTrailing Char.isWhitespace
      ((dropTrailing Char.isWhitespace
        (s.data.dropWhile Char.isWhitespace)).dropWhile Char.isWhitespace))
    = String.mk (dropTrailing Char.isWhitespace (s.data.dropWhile Char.isWhitespace))
  rw [dropWhile_dropTrailing _ _ hA, dropTrailing_dropTrailing]

theorem jsTrim_defaultTerminalApp (p : Platform) :
    jsTrim (defaultTerminalApp p) = defaultTerminalApp p := by
  unfold defaultTerminalApp
  split_ifs <;> decide

theorem trimFixed_platformSlot (pf : DesktopPlatform) (v : String) (hv : jsTrim v = v) :
    TrimFixed (platformSlot pf v) := by
  have key : ∀ s : String, (some v : Option String) = some s → jsTrim s = s := by
    intro s hs
    injection hs with h
    rw [← h]
    exact hv
  have non : ∀ s : String, (none : Option String) = some s → jsTrim s = s := by
    intro s hs
    cases hs
  unfold TrimFixed
  cases pf
  · exact ⟨fun s hs => key s hs, fun s hs => non s hs, fun s hs => non s hs⟩
  · exact ⟨fun s hs => non s hs, fun s hs => key s hs, fun s hs => non s hs⟩
  · exact ⟨fun s hs => non s hs, fun s hs => non s hs, fun s hs => key s hs⟩

theorem trimFixed_default (p : Platform) :
    TrimFixed (buildDefaultTerminalAppSetting p) := by
  unfold buildDefaultTerminalAppSetting
  cases h : getCurrentDesktopPlatform p with
  | none =>
    unfold TrimFixed
    refine ⟨fun s hs => ?_, fun s hs => ?_, fun s hs => ?_⟩ <;> cases hs
  | some pf => exact trimFixed_platformSlot pf _ (jsTrim_defaultTerminalApp p)

theorem trimFixed_normTAS (p : Platform) (v : JsValue) (fb : TerminalAppByPlatform)
    (hfb : TrimFixed fb) : TrimFixed (normalizeTerminalAppSetting p v fb) := by
  cases v with
  | str s =>
    unfold normalizeTerminalAppSetting
    cases getCurrentDesktopPlatform p with
    | none => exact hfb
    | some pf => exact trimFixed_platformSlot pf _ (jsTrim_jsTrim s)
  | obj fields =>
    unfold TrimFixed
    refine ⟨fun s hs => ?_, fun s hs => ?_, fun s hs => ?_⟩ <;>
    · simp only [normalizeTerminalAppSetting] at hs
      split at hs
      · cases hs; exact jsTrim_jsTrim _
      · cases hs
  | null => exact hfb
  | undefined => exact hfb
  | bool b => exact hfb
  | num n => exact hfb

theorem getField_encodeTerminalApp_win (t : TerminalAppByPlatform) :
    getField (encodeTerminalApp t) "win"
      = (match t.win with | some s => JsValue.str s | none => JsValue.undefined) := by
  rcases t with ⟨w, m, l⟩
  rcases w with _ | ws <;> rcases m with _ | ms <;> rcases l with _ | ls <;> rfl

theorem getField_encodeTerminalApp_macos (t : TerminalAppByPlatform) :
    getField (encodeTerminalApp t) "macos"
      = (match t.macos with | some s => JsValue.str s | none => JsValue.undefined) := by
  rcases t with ⟨w, m, l⟩
  rcases w with _ | ws <;> rcases m with _ | ms <;> rcases l with _ | ls <;> rfl

theorem getField_encodeTerminalApp_linux (t : TerminalAppByPlatform) :
    getField (encodeTerminalApp t) "linux"
      = (match t.linux with | some s => JsValue.str s | none => JsValue.undefined) := by
  rcases t with ⟨w, m, l⟩
  rcases w with _ | ws <;> rcases m with _ | ms <;> rcases l with _ | ls <;> rfl

theorem normTAS_encode (p : Platform) (fb t : TerminalAppByPlatform)
    (ht : TrimFixed t) :
    normalizeTerminalAppSetting p (encodeTerminalApp t) fb = t := by
  obtain ⟨htw, htm, htl⟩ := ht
  have hw := getField_encodeTerminalApp_win t
  have hm := getField_encodeTerminalApp_macos t
  have hl := getField_encodeTerminalApp_linux t
  rcases t with ⟨w, m, l⟩
  show TerminalAppByPlatform.mk _ _ _ = TerminalAppByPlatform.mk w m l
  rw [hw, hm, hl]
  rcases w with _ | ws <;> rcases m with _ | ms <;> rcases l with _ | ls <;>
    simp_all

theorem buildMacLaunch_none_iff (app vault fresh : String) (tool : Option String) :
    buildMacLaunch app vault tool fresh = none ↔ sanitizeTerminalApp app = "" := by
  by_cases h : sanitizeTerminalApp app = ""
  · simp [buildMacLaunch, h]
  · constructor
    · intro heq
      exfalso
      simp only [buildMacLaunch] at heq
      rw [if_neg h] at heq
      repeat' split at heq
      all_goals cases heq
    · intro heq; exact absurd heq h

theorem buildWindowsLaunch_none_iff (app vault : String) (tool : Option String) :
    buildWindowsLaunch app vault tool = none ↔ sanitizeTerminalApp app = "" := by
  by_cases h : sanitizeTerminalApp app = ""
  · simp [buildWindowsLaunch, h]
  · constructor
    · intro heq
      exfalso
      simp only [buildWindowsLaunch] at heq
      rw [if_neg h] at heq
      repeat' split at heq
      all_goals cases heq
    · intro heq; exact absurd heq h

theorem buildUnixLaunch_none_iff (app : String) (tool : Option String) :
    buildUnixLaunch app tool = none ↔ sanitizeTerminalApp app = "" := by
  by_cases h : sanitizeTerminalApp app = ""
  · simp [buildUnixLaunch, h]
  · constructor
    · intro heq
      exfalso
      simp only [buildUnixLaunch] at heq
      rw [if_neg h] at heq
      repeat' split at heq
      all_goals cases heq
    · intro heq; exact absurd heq h

theorem buildMacLaunch_no_tool (app vault fresh : String)
    (h : sanitizeTerminalApp app ≠ "") :
    buildMacLaunch app vault none fresh
      = some { command := "open -na \"" ++ escapeDoubleQuotes (sanitizeTerminalApp app)
                 ++ "\" \"" ++ escapeDoubleQuotes vault ++ "\"" } := by
  unfold buildMacLaunch
  simp [h]

theorem buildWindowsLaunch_fields (app vault : String) (tool : Option String)
    (lc : LaunchCommand) (h : buildWindowsLaunch app vault tool = some lc) :
    lc.cleanup = none ∧ lc.script = none := by
  simp only [buildWindowsLaunch] at h
  repeat' split at h
  all_goals cases h
  all_goals exact ⟨rfl, rfl⟩

theorem buildUnixLaunch_fields (app : String) (tool : Option String)
    (lc : LaunchCommand) (h : buildUnixLaunch app tool = some lc) :
    lc.cleanup = none ∧ lc.script = none := by
  simp only [buildUnixLaunch] at h
  repeat' split at h
  all_goals cases h
  all_goals exact ⟨rfl, rfl⟩

/- ----------------------------------------------------------------- -/
/- Claims                                                             -/
/- ----------------------------------------------------------------- -/

theorem winEscapeVault_id (s : String) : winEscapeVault s = s := by
  obtain ⟨l⟩ := s
  show String.mk (l.foldr (fun c acc => if c = '"' then '"' :: acc else c :: acc) [])
      = String.mk l
  congr 1
  induction l with
  | nil => rfl
  | cons c t ih =>
    by_cases hc : c = '"'
    · simp [List.foldr, hc, ih]
    · simp [List.foldr, hc, ih]

theorem getField_ifRecord (x : JsValue) (k : String) :
    getField (if isRecord x then x else .obj []) k = getField x k := by
  cases x <;> rfl

/-- C1: the Windows WSL toggle is NOT honored by command synthesis: the
options argument of the call made by composeLaunchCommand is discarded
(buildLaunchCommand declares no options parameter), so the produced
launch command is identical whatever the flag says; in particular on
Windows with the flag enabled the command is still the native cmd.exe
template and routes nothing through WSL. This exhibits the code bug
behind the claim. -/
theorem C1_wsl_options_ignored :
    (∀ (p : Platform) (app vault fresh : String) (tool : Option String)
        (o1 o2 : LaunchOptions),
        buildLaunchCommandWithOptions p app vault tool o1 fresh
          = buildLaunchCommandWithOptions p app vault tool o2 fresh) ∧
    buildLaunchCommandWithOptions ⟨true, false, true, false⟩ "cmd.exe" "C:\\vault"
        (some "claude") ⟨true⟩ "d"
      = some { command := "start \"\" cmd.exe /K \"cd /d \"C:\\vault\" && claude\"" } :=
  ⟨fun _ _ _ _ _ _ _ => rfl, by decide⟩

/-- C2: buildLaunchCommand returns null exactly when the platform is
non-desktop or the terminal app is empty after trimming; the null is an
ordinary return value of the total function, not a thrown error. -/
theorem C2_buildLaunchCommand_none_iff (p : Platform) (app vault fresh : String)
    (tool : Option String) :
    buildLaunchCommand p app vault tool fresh = none ↔
      (p.isDesktopApp = false ∨ sanitizeTerminalApp app = "") := by
  unfold buildLaunchCommand
  cases hd : p.isDesktopApp with
  | false => simp
  | true =>
    cases hmac : p.isMacOS with
    | true => simp [buildMacLaunch_none_iff]
    | false =>
      cases hwin : p.isWin with
      | true => simp [buildWindowsLaunch_none_iff]
      | false => simp [buildUnixLaunch_none_iff]

/-- C3 counterexample: on a non-desktop platform buildLaunchCommand with
a non-empty app and no tool command returns null, so the claim as stated
over all platform categories fails. -/
theorem C3_counterexample_nondesktop :
    buildLaunchCommand ⟨false, false, false, false⟩ "Terminal" "/Users/a/vault" none "tmpdir"
      = none := rfl

/-- C3 (amended to desktop platform categories): for every desktop
platform and non-empty-after-trimming app, buildLaunchCommand with no
tool command returns a non-null command with no cleanup and no temporary
script; on macOS with app Terminal and directory /Users/a/vault the
command is exactly the documented open invocation. -/
theorem C3_no_tool_simple_launch :
    (∀ (p : Platform) (app vault fresh : String),
        p.isDesktopApp = true → sanitizeTerminalApp app ≠ "" →
        ∃ lc : LaunchCommand, buildLaunchCommand p app vault none fresh = some lc ∧
          lc.cleanup = none ∧ lc.script = none) ∧
    buildLaunchCommand ⟨true, true, false, false⟩ "Terminal" "/Users/a/vault" none "tmpdir"
      = some { command := "open -na \"Terminal\" \"/Users/a/vault\"" } := by
  constructor
  · intro p app vault fresh hd happ
    unfold buildLaunchCommand
    simp only [hd, Bool.not_true, Bool.false_eq_true, if_false]
    cases hmac : p.isMacOS with
    | true =>
      simp only [if_true]
      rw [buildMacLaunch_no_tool app vault fresh happ]
      exact ⟨_, rfl, rfl, rfl⟩
    | false =>
      simp only [Bool.false_eq_true, if_false]
      cases hwin : p.isWin with
      | true =>
        simp only [if_true]
        have hnn : buildWindowsLaunch app vault none ≠ none := by
          rw [Ne, buildWindowsLaunch_none_iff]
          exact happ
        obtain ⟨lc, hlc⟩ := Option.ne_none_iff_exists'.mp hnn
        exact ⟨lc, hlc, buildWindowsLaunch_fields app vault none lc hlc⟩
      | false =>
        simp only [Bool.false_eq_true, if_false]
        have hnn : buildUnixLaunch app none ≠ none := by
          rw [Ne, buildUnixLaunch_none_iff]
          exact happ
        obtain ⟨lc, hlc⟩ := Option.ne_none_iff_exists'.mp hnn
        exact ⟨lc, hlc, buildUnixLaunch_fields app none lc hlc⟩
  · rfl

/-- C3 witness: the amended claim instantiated on a Linux desktop with
app xterm. -/
theorem C3_witness :
    ((⟨true, false, false, true⟩ : Platform).isDesktopApp = true) ∧
    sanitizeTerminalApp "xterm" ≠ "" ∧
    ∃ lc : LaunchCommand,
      buildLaunchCommand ⟨true, false, false, true⟩ "xterm" "/home/u/v" none "d" = some lc ∧
        lc.cleanup = none ∧ lc.script = none :=
  ⟨rfl, by decide,
    C3_no_tool_simple_launch.1 ⟨true, false, false, true⟩ "xterm" "/home/u/v" "d" rfl
      (by decide)⟩

/-- C9: the cleanup action of the macOS tool-command launch never throws
to its caller: whatever the file-system state, including the directory
being already gone, running it returns normally, and running it a second
time returns normally again (failures are swallowed by the try/catch in
the source and only logged). -/
theorem C9_cleanup_never_throws
    (app vault tc fresh : String) (lc : LaunchCommand) (d : String)
    (hb : buildMacLaunch app vault (some tc) fresh = some lc)
    (hc : lc.cleanup = some d) (fs : FS) :
    d = fresh ∧
    ∃ fs1 fs2 : FS, runCleanup d fs = Except.ok fs1 ∧ runCleanup d fs1 = Except.ok fs2 := by
  have hd : d = fresh := by
    simp only [buildMacLaunch] at hb
    repeat' split at hb
    all_goals cases hb
    all_goals cases hc
    all_goals rfl
  refine ⟨hd, ?_⟩
  have hok : ∀ fs0 : FS, ∃ fs1, runCleanup d fs0 = Except.ok fs1 := by
    intro fs0
    unfold runCleanup
    cases hE : rmSyncRecursiveForce d fs0 with
    | ok fs2 => exact ⟨fs2, rfl⟩
    | error e => exact ⟨fs0, rfl⟩
  obtain ⟨fs1, h1⟩ := hok fs
  obtain ⟨fs2, h2⟩ := hok fs1
  exact ⟨fs1, fs2, h1, h2⟩

/-- C9 witness: cleanup of a concrete launch runs twice without error on
a file system that never contained the directory. -/
theorem C9_witness :
    "/tmp/oit" = "/tmp/oit" ∧
    ∃ fs1 fs2 : FS, runCleanup "/tmp/oit" ⟨[], []⟩ = Except.ok fs1 ∧
      runCleanup "/tmp/oit" fs1 = Except.ok fs2 :=
  C9_cleanup_never_throws "Terminal" "/v" "claude" "/tmp/oit"
    ⟨"open -na \"Terminal\" \"/tmp/oit/launch.command\"", some "/tmp/oit",
      some ⟨"/tmp/oit/launch.command", "#!/bin/bash\ncd \"/v\"\nclaude\nexec \"$SHELL\"", 493⟩⟩
    "/tmp/oit" (by decide) rfl ⟨[], []⟩

/-- C10: only the macOS tool path ever produces a cleanup or a temporary
script: every non-null result of the Windows and Linux/BSD builders,
tool command or not, carries no cleanup and no script, and so does every
non-null result of the dispatcher off macOS. -/
theorem C10_only_mac_cleanup :
    (∀ (app vault : String) (tool : Option String) (lc : LaunchCommand),
        buildWindowsLaunch app vault tool = some lc →
        lc.cleanup = none ∧ lc.script = none) ∧
    (∀ (app : String) (tool : Option String) (lc : LaunchCommand),
        buildUnixLaunch app tool = some lc → lc.cleanup = none ∧ lc.script = none) ∧
    (∀ (p : Platform) (app vault fresh : String) (tool : Option String)
        (lc : LaunchCommand), p.isMacOS = false →
        buildLaunchCommand p app vault tool fresh = some lc →
        lc.cleanup = none ∧ lc.script = none) := by
  refine ⟨fun app vault tool lc h => buildWindowsLaunch_fields app vault tool lc h,
          fun app tool lc h => buildUnixLaunch_fields app tool lc h,
          fun p app vault fresh tool lc hmac h => ?_⟩
  unfold buildLaunchCommand at h
  simp only [hmac, Bool.false_eq_true, if_false] at h
  split at h
  · cases h
  · split at h
    · exact buildWindowsLaunch_fields _ _ _ _ h
    · exact buildUnixLaunch_fields _ _ _ h

/-- C10 witness: the Windows cmd tool launch carries no cleanup and no
script. -/
theorem C10_witness :
    (⟨"start \"\" cmd.exe /K \"cd /d \"C:\\v\" && claude\"", none, none⟩
        : LaunchCommand).cleanup = none ∧
    (⟨"start \"\" cmd.exe /K \"cd /d \"C:\\v\" && claude\"", none, none⟩
        : LaunchCommand).script = none :=
  C10_only_mac_cleanup.1 "cmd" "C:\\v" (some "claude") _ (by decide)

/-- C4: on macOS with a non-empty app and a (truthy) tool command,
buildMacLaunch writes a temporary script that is exactly a shebang line,
a cd into the double-quote-escaped working directory, the literal tool
command line, and an exec of the login shell, with executable mode 0o755;
the returned command opens the application on the script path, and the
result always carries a cleanup that deletes the temporary directory
containing the script. -/
theorem C4_mac_tool_script (app vault tc fresh : String)
    (happ : sanitizeTerminalApp app ≠ "") (htc : tc ≠ "") :
    buildMacLaunch app vault (some tc) fresh = some
      { command := "open -na \"" ++ escapeDoubleQuotes (sanitizeTerminalApp app) ++ "\" \""
          ++ (fresh ++ "/launch.command") ++ "\"",
        cleanup := some fresh,
        script := some ⟨fresh ++ "/launch.command",
          "#!/bin/bash" ++ "\n" ++ "cd \"" ++ escapeDoubleQuotes vault ++ "\"" ++ "\n"
            ++ tc ++ "\n" ++ "exec \"$SHELL\"", 0o755⟩ } := by
  simp [buildMacLaunch, happ, htc, ensureTempScript]

/-- C4 witness: the end-to-end iTerm / /vault / claude instance. -/
theorem C4_witness :
    sanitizeTerminalApp "iTerm" ≠ "" ∧ ("claude" : String) ≠ "" ∧
    buildMacLaunch "iTerm" "/vault" (some "claude") "/tmp/oit-1"
      = some { command := "open -na \"iTerm\" \"/tmp/oit-1/launch.command\"",
               cleanup := some "/tmp/oit-1",
               script := some ⟨"/tmp/oit-1/launch.command",
                 "#!/bin/bash\ncd \"/vault\"\nclaude\nexec \"$SHELL\"", 493⟩ } := by
  refine ⟨by decide, by decide, ?_⟩
  rw [C4_mac_tool_script "iTerm" "/vault" "claude" "/tmp/oit-1" (by decide) (by decide)]
  rfl

/-- C5: the Windows builder produces exactly the documented
start-prefixed template of each shell, the generic fallbacks, and embeds
the working directory verbatim: the double-quote replacement pass is the
identity, so the templates below carry the raw directory (the powershell
template doubles single quotes, as documented). -/
theorem C5_windows_templates (app vault : String) (tool : Option String)
    (happ : sanitizeTerminalApp app ≠ "") :
    (∀ s : String, winEscapeVault s = s) ∧
    ((jsToLower (sanitizeTerminalApp app) = "cmd.exe"
        ∨ jsToLower (sanitizeTerminalApp app) = "cmd") →
      ((tool = none ∨ tool = some "") →
        buildWindowsLaunch app vault tool
          = some { command := "start \"\" cmd.exe /K \""
                     ++ ("cd /d \"" ++ vault ++ "\"") ++ "" ++ "\"" }) ∧
      (∀ tc, tc ≠ "" → tool = some tc →
        buildWindowsLaunch app vault tool
          = some { command := "start \"\" cmd.exe /K \""
                     ++ ("cd /d \"" ++ vault ++ "\"") ++ (" && " ++ tc) ++ "\"" })) ∧
    ((jsToLower (sanitizeTerminalApp app) = "powershell"
        ∨ jsToLower (sanitizeTerminalApp app) = "powershell.exe") →
      ((tool = none ∨ tool = some "") →
        buildWindowsLaunch app vault tool
          = some { command := "start \"\" powershell -NoExit -Command \"Set-Location \x27"
                     ++ psEscapeSingleQuotes vault ++ "\x27;\"" }) ∧
      (∀ tc, tc ≠ "" → tool = some tc →
        buildWindowsLaunch app vault tool
          = some { command := "start \"\" powershell -NoExit -Command \"Set-Location \x27"
                     ++ psEscapeSingleQuotes vault ++ "\x27; " ++ tc ++ "\"" })) ∧
    ((jsToLower (sanitizeTerminalApp app) = "wt.exe"
        ∨ jsToLower (sanitizeTerminalApp app) = "wt") →
      ((tool = none ∨ tool = some "") →
        buildWindowsLaunch app vault tool
          = some { command := "start \"\" wt.exe new-tab cmd /K \""
                     ++ ("cd /d \"" ++ vault ++ "\"") ++ "" ++ "\"" }) ∧
      (∀ tc, tc ≠ "" → tool = some tc →
        buildWindowsLaunch app vault tool
          = some { command := "start \"\" wt.exe new-tab cmd /K \""
                     ++ ("cd /d \"" ++ vault ++ "\"") ++ (" && " ++ tc) ++ "\"" })) ∧
    (¬(jsToLower (sanitizeTerminalApp app) = "cmd.exe"
        ∨ jsToLower (sanitizeTerminalApp app) = "cmd") →
     ¬(jsToLower (sanitizeTerminalApp app) = "powershell"
        ∨ jsToLower (sanitizeTerminalApp app) = "powershell.exe") →
     ¬(jsToLower (sanitizeTerminalApp app) = "wt.exe"
        ∨ jsToLower (sanitizeTerminalApp app) = "wt") →
      ((tool = none ∨ tool = some "") →
        buildWindowsLaunch app vault tool
          = some { command := "start \"\" \"" ++ sanitizeTerminalApp app ++ "\"" }) ∧
      (∀ tc, tc ≠ "" → tool = some tc →
        buildWindowsLaunch app vault tool
          = some { command := "start \"\" cmd.exe /K \""
                     ++ ("cd /d \"" ++ vault ++ "\"") ++ (" && " ++ tc) ++ "\"" })) := by
  refine ⟨winEscapeVault_id, fun hla => ⟨?_, ?_⟩, fun hla => ?psno, fun hla => ?wtno,
    fun h1 h2 h3 => ⟨?_, ?_⟩⟩
  case psno =>
    have hnotcmd : ¬(jsToLower (sanitizeTerminalApp app) = "cmd.exe"
        ∨ jsToLower (sanitizeTerminalApp app) = "cmd") := by
      rintro (h | h) <;> rcases hla with ha | ha <;>
        exact absurd (h.symm.trans ha) (by decide)
    constructor
    · rintro (rfl | rfl) <;>
      · simp only [buildWindowsLaunch]
        rw [if_neg happ, if_neg hnotcmd, if_pos hla]
        try rfl
    · rintro tc htc rfl
      simp only [buildWindowsLaunch]
      rw [if_neg happ, if_neg hnotcmd, if_pos hla, if_neg htc]
  case wtno =>
    have hnotcmd : ¬(jsToLower (sanitizeTerminalApp app) = "cmd.exe"
        ∨ jsToLower (sanitizeTerminalApp app) = "cmd") := by
      rintro (h | h) <;> rcases hla with ha | ha <;>
        exact absurd (h.symm.trans ha) (by decide)
    have hnotps : ¬(jsToLower (sanitizeTerminalApp app) = "powershell"
        ∨ jsToLower (sanitizeTerminalApp app) = "powershell.exe") := by
      rintro (h | h) <;> rcases hla with ha | ha <;>
        exact absurd (h.symm.trans ha) (by decide)
    constructor
    · rintro (rfl | rfl) <;>
      · simp only [buildWindowsLaunch]
        rw [if_neg happ, if_neg hnotcmd, if_neg hnotps, if_pos hla, winEscapeVault_id]
        try rfl
    · rintro tc htc rfl
      simp only [buildWindowsLaunch]
      rw [if_neg happ, if_neg hnotcmd, if_neg hnotps, if_pos hla, if_neg htc,
        winEscapeVault_id]
  · rintro (rfl | rfl) <;>
    · simp only [buildWindowsLaunch]
      rw [if_neg happ, if_pos hla, winEscapeVault_id]
      try rfl
  · rintro tc htc rfl
    simp only [buildWindowsLaunch]
    rw [if_neg happ, if_pos hla, if_neg htc, winEscapeVault_id]
  · rintro (rfl | rfl) <;>
    · simp only [buildWindowsLaunch]
      rw [if_neg happ, if_neg h1, if_neg h2, if_neg h3]
      try rfl
  · rintro tc htc rfl
    simp only [buildWindowsLaunch]
    rw [if_neg happ, if_neg h1, if_neg h2, if_neg h3, if_neg htc, winEscapeVault_id]

/-- C5 witness: a mixed-case cmd name with a tool command produces the
cmd.exe /K template with the directory embedded verbatim. -/
theorem C5_witness :
    sanitizeTerminalApp "CMD" ≠ "" ∧
    jsToLower (sanitizeTerminalApp "CMD") = "cmd" ∧
    ("claude" : String) ≠ "" ∧
    buildWindowsLaunch "CMD" "C:\\my vault" (some "claude")
      = some { command := "start \"\" cmd.exe /K \""
                 ++ ("cd /d \"" ++ "C:\\my vault" ++ "\"") ++ (" && " ++ "claude") ++ "\"" } := by
  refine ⟨by decide, by decide, by decide, ?_⟩
  exact ((C5_windows_templates "CMD" "C:\\my vault" (some "claude")
      (by decide)).2.1 (Or.inr (by decide))).2 "claude" (by decide) rfl

/-- C6: the Linux/BSD builder yields the bare trimmed application name
when there is no tool command (the directory is not embedded), and with
a tool command wraps the documented fragment: a gnome-terminal name gets
the bare double-dash separator form, a konsole name the -e form, and any
other name the same generic -e form. -/
theorem C6_unix_wrappers (app : String) (happ : sanitizeTerminalApp app ≠ "") :
    buildUnixLaunch app none = some { command := sanitizeTerminalApp app } ∧
    ∀ tc : String, tc ≠ "" →
      buildUnixLaunch app (some tc) = some
        { command :=
            if includes (sanitizeTerminalApp app) "gnome-terminal" = true then
              sanitizeTerminalApp app ++ " -- bash -lc \""
                ++ ("cd \"$PWD\"; " ++ tc ++ "; exec \"$SHELL\"") ++ "\""
            else if includes (sanitizeTerminalApp app) "konsole" = true then
              sanitizeTerminalApp app ++ " -e bash -lc \""
                ++ ("cd \"$PWD\"; " ++ tc ++ "; exec \"$SHELL\"") ++ "\""
            else
              sanitizeTerminalApp app ++ " -e bash -lc \""
                ++ ("cd \"$PWD\"; " ++ tc ++ "; exec \"$SHELL\"") ++ "\"" } := by
  constructor
  · simp [buildUnixLaunch, happ]
  · intro tc htc
    by_cases hg : includes (sanitizeTerminalApp app) "gnome-terminal" = true
    · simp [buildUnixLaunch, happ, htc, hg]
    · by_cases hk : includes (sanitizeTerminalApp app) "konsole" = true
      · simp [buildUnixLaunch, happ, htc, hg, hk]
      · simp [buildUnixLaunch, happ, htc, hg, hk]

/-- C6 witness: konsole with the claude tool command gets the -e form. -/
theorem C6_witness :
    sanitizeTerminalApp "konsole" ≠ "" ∧ ("claude" : String) ≠ "" ∧
    buildUnixLaunch "konsole" (some "claude")
      = some { command := "konsole -e bash -lc \"cd \"$PWD\"; claude; exec \"$SHELL\"\"" } := by
  refine ⟨by decide, by decide, ?_⟩
  exact ((C6_unix_wrappers "konsole" (by decide)).2 "claude" (by decide)).trans (by decide)

theorem readBoolean_eq (v : JsValue) (d : Bool) :
    readBoolean v d = (match v with | .bool b => b | _ => d) := by
  cases v <;> rfl

/-- C8: normalizeSettings is total over arbitrary input and normalizes
field by field: a non-mapping input yields all defaults; each boolean
field takes the stored value exactly when it is of boolean type, else
its default (false); a bare-string terminal-app value fills only the
current platform slot, trimmed; a mapping-shaped terminal-app value has
each platform slot read independently when present and a string,
trimmed; any other terminal-app shape falls back entirely to the
default. -/
theorem C8_normalizeSettings_fields (p : Platform) (x : JsValue) :
    (isRecord x = false → normalizeSettings p x = DEFAULT_SETTINGS p) ∧
    (normalizeSettings p x).enableClaude
      = (match getField x "enableClaude" with | JsValue.bool b => b | _ => false) ∧
    (normalizeSettings p x).enableCodex
      = (match getField x "enableCodex" with | JsValue.bool b => b | _ => false) ∧
    (normalizeSettings p x).enableCursor
      = (match getField x "enableCursor" with | JsValue.bool b => b | _ => false) ∧
    (normalizeSettings p x).enableGemini
      = (match getField x "enableGemini" with | JsValue.bool b => b | _ => false) ∧
    (normalizeSettings p x).enableOpencode
      = (match getField x "enableOpencode" with | JsValue.bool b => b | _ => false) ∧
    (normalizeSettings p x).enableWslOnWindows
      = (match getField x "enableWslOnWindows" with | JsValue.bool b => b | _ => false) ∧
    (∀ (s : String) (pf : DesktopPlatform), getField x "terminalApp" = JsValue.str s →
      getCurrentDesktopPlatform p = some pf →
      (normalizeSettings p x).terminalApp = platformSlot pf (jsTrim s)) ∧
    (∀ fields : List (String × JsValue), getField x "terminalApp" = JsValue.obj fields →
      (normalizeSettings p x).terminalApp =
        { win := match getField (JsValue.obj fields) "win" with
                  | JsValue.str s => some (jsTrim s)
                  | _ => none
          macos := match getField (JsValue.obj fields) "macos" with
                  | JsValue.str s => some (jsTrim s)
                  | _ => none
          linux := match getField (JsValue.obj fields) "linux" with
                  | JsValue.str s => some (jsTrim s)
                  | _ => none }) ∧
    ((∀ s : String, getField x "terminalApp" ≠ JsValue.str s) →
     (∀ fields : List (String × JsValue), getField x "terminalApp" ≠ JsValue.obj fields) →
      (normalizeSettings p x).terminalApp = buildDefaultTerminalAppSetting p) := by
  refine ⟨?_, ?_, ?_, ?_, ?_, ?_, ?_, ?_, ?_, ?_⟩
  · intro h
    cases x <;> first | rfl | cases h
  · show readBoolean (getField (if isRecord x then x else JsValue.obj []) "enableClaude")
        (DEFAULT_SETTINGS p).enableClaude = _
    rw [getField_ifRecord]
    cases getField x "enableClaude" <;> rfl
  · show readBoolean (getField (if isRecord x then x else JsValue.obj []) "enableCodex")
        (DEFAULT_SETTINGS p).enableCodex = _
    rw [getField_ifRecord]
    cases getField x "enableCodex" <;> rfl
  · show readBoolean (getField (if isRecord x then x else JsValue.obj []) "enableCursor")
        (DEFAULT_SETTINGS p).enableCursor = _
    rw [getField_ifRecord]
    cases getField x "enableCursor" <;> rfl
  · show readBoolean (getField (if isRecord x then x else JsValue.obj []) "enableGemini")
        (DEFAULT_SETTINGS p).enableGemini = _
    rw [getField_ifRecord]
    cases getField x "enableGemini" <;> rfl
  · show readBoolean (getField (if isRecord x then x else JsValue.obj []) "enableOpencode")
        (DEFAULT_SETTINGS p).enableOpencode = _
    rw [getField_ifRecord]
    cases getField x "enableOpencode" <;> rfl
  · show readBoolean (getField (if isRecord x then x else JsValue.obj []) "enableWslOnWindows")
        (DEFAULT_SETTINGS p).enableWslOnWindows = _
    rw [getField_ifRecord]
    cases getField x "enableWslOnWindows" <;> rfl
  · intro s pf hs hpf
    show normalizeTerminalAppSetting p
        (getField (if isRecord x then x else JsValue.obj []) "terminalApp")
        (DEFAULT_SETTINGS p).terminalApp = platformSlot pf (jsTrim s)
    rw [getField_ifRecord, hs]
    unfold normalizeTerminalAppSetting
    rw [hpf]
  · intro fields hf
    show normalizeTerminalAppSetting p
        (getField (if isRecord x then x else JsValue.obj []) "terminalApp")
        (DEFAULT_SETTINGS p).terminalApp = _
    rw [getField_ifRecord, hf]
    rfl
  · intro hs hf
    show normalizeTerminalAppSetting p
        (getField (if isRecord x then x else JsValue.obj []) "terminalApp")
        (DEFAULT_SETTINGS p).terminalApp = buildDefaultTerminalAppSetting p
    rw [getField_ifRecord]
    cases hv : getField x "terminalApp" with
    | str s => exact absurd hv (hs s)
    | obj fields => exact absurd hv (hf fields)
    | null => rfl
    | undefined => rfl
    | bool b => rfl
    | num n => rfl

/-- C8 witness: a stored object with a legacy-free mapping is read field
by field on macOS; the bare-string clause is exercised through the
terminal-app string shape. -/
theorem C8_witness :
    getField (JsValue.obj [("terminalApp", JsValue.str "  iTerm "),
        ("enableClaude", JsValue.bool true)]) "terminalApp" = JsValue.str "  iTerm " ∧
    getCurrentDesktopPlatform ⟨true, true, false, false⟩ = some DesktopPlatform.macos ∧
    (normalizeSettings ⟨true, true, false, false⟩
        (JsValue.obj [("terminalApp", JsValue.str "  iTerm "),
          ("enableClaude", JsValue.bool true)])).terminalApp
      = platformSlot DesktopPlatform.macos (jsTrim "  iTerm ") :=
  ⟨rfl, rfl,
    (C8_normalizeSettings_fields ⟨true, true, false, false⟩
        (JsValue.obj [("terminalApp", JsValue.str "  iTerm "),
          ("enableClaude", JsValue.bool true)])).2.2.2.2.2.2.2.1
      "  iTerm " DesktopPlatform.macos rfl rfl⟩

/-- C7: normalizeSettings is idempotent: for every platform and every
stored value x, including null, undefined, a legacy bare-string terminal
app, and a malformed non-object value, re-normalizing the persisted form
of the normalized settings gives exactly the normalized settings. -/
theorem C7_normalizeSettings_idem (p : Platform) (x : JsValue) :
    normalizeSettings p (encodeSettings (normalizeSettings p x)) = normalizeSettings p x := by
  have hfb : TrimFixed (DEFAULT_SETTINGS p).terminalApp := trimFixed_default p
  have hfix : TrimFixed (normalizeSettings p x).terminalApp :=
    trimFixed_normTAS p _ _ hfb
  rcases hN : normalizeSettings p x with ⟨ta, b1, b2, b3, b4, b5, b6⟩
  rw [hN] at hfix
  show OpenInTerminalSettings.mk
      (normalizeTerminalAppSetting p (encodeTerminalApp ta) (DEFAULT_SETTINGS p).terminalApp)
      b1 b2 b3 b4 b5 b6
    = OpenInTerminalSettings.mk ta b1 b2 b3 b4 b5 b6
  rw [normTAS_encode p _ ta hfix]

end OpenInTerminal
